import Mathlib

/-!
Shallow embedding of the fluxer.js rate-limit, gateway close-code, token and
embed-builder logic, with theorems checking the natural-language specification
against it.  JavaScript numbers used as millisecond timestamps are modelled as
Int; JavaScript strings as Lean String (operating on the underlying character
list where Lean lacks the exact primitive); a thrown RangeError is modelled as
the error branch of Except.
-/

/-! ## RateLimitBucket (src/rateLimit/RateLimitBucket.ts)

The bucket holds the route key, the limit, the window in milliseconds, the
exempt flag and the ordered list of request timestamps.  The source mutates
the array in place; here every operation returns the updated bucket.  The
private FIFO promise queue of the source serialises all operations, so each
operation below is the body that the queue runs atomically, and a race of
several callers is a sequential run of these bodies (see acquireRun). -/

structure RateLimitBucket where
  bucketKey : String
  limit : Nat
  windowMs : Int
  exemptFromGlobal : Bool
  timestamps : List Int
deriving Repr, DecidableEq

/-- Body of the while loop of RateLimitBucket._prune: shift entries from the
front while the head is strictly below the cutoff. -/
def pruneList (cutoff : Int) : List Int → List Int
  | [] => []
  | t :: rest => if t < cutoff then pruneList cutoff rest else t :: rest

/-- RateLimitBucket._prune: drop timestamps strictly older than now - windowMs. -/
def RateLimitBucket.prune (b : RateLimitBucket) (now : Int) : RateLimitBucket :=
  { b with timestamps := pruneList (now - b.windowMs) b.timestamps }

/-- RateLimitBucket._tryAcquire: prune, then admit (record now, return 0) when
fewer than limit timestamps remain, else return the clamped wait until the
oldest entry leaves the window, recording nothing.  The empty-list branch of
the match is unreachable for limit at least 1: the source asserts the head
with a non-null assertion there. -/
def RateLimitBucket.tryAcquire (b : RateLimitBucket) (now : Int) : Int × RateLimitBucket :=
  let b1 := b.prune now
  if b1.timestamps.length < b1.limit then
    (0, { b1 with timestamps := b1.timestamps ++ [now] })
  else
    match b1.timestamps with
    | [] => (0, b1)
    | oldest :: _ => (max 0 (oldest + b1.windowMs - now), b1)

/-- RateLimitBucket.acquire enqueues _tryAcquire on the FIFO queue; the queued
body is _tryAcquire itself. -/
def RateLimitBucket.acquire (b : RateLimitBucket) (now : Int) : Int × RateLimitBucket :=
  b.tryAcquire now

/-- RateLimitBucket.getRemaining: prune, then report limit minus the count. -/
def RateLimitBucket.getRemaining (b : RateLimitBucket) (now : Int) : Int × RateLimitBucket :=
  let b1 := b.prune now
  ((b1.limit : Int) - b1.timestamps.length, b1)

/-- RateLimitBucket.getResetTime: prune, then milliseconds until the oldest
entry expires, zero for an empty bucket. -/
def RateLimitBucket.getResetTime (b : RateLimitBucket) (now : Int) : Int × RateLimitBucket :=
  let b1 := b.prune now
  match b1.timestamps with
  | [] => (0, b1)
  | oldest :: _ => (max 0 (oldest + b1.windowMs - now), b1)

/-- RateLimitBucket.reset: clear all tracked timestamps. -/
def RateLimitBucket.reset (b : RateLimitBucket) : RateLimitBucket :=
  { b with timestamps := [] }

/-- Sequential execution of queued acquire bodies: the FIFO promise queue runs
one _tryAcquire per caller, in order, each reading the clock when it runs.
The list holds the clock reading of each run; the result pairs the returned
waits with the final bucket. -/
def acquireRun : RateLimitBucket → List Int → List Int × RateLimitBucket
  | b, [] => ([], b)
  | b, n :: rest =>
    let r := b.acquire n
    let s := acquireRun r.2 rest
    (r.1 :: s.1, s.2)

/-! ## Close codes (src/gateway/closeCodes.ts) -/

namespace FluxorCloseCode

def UnknownError : Int := 4000
def UnknownOpCode : Int := 4001
def DecodeError : Int := 4002
def NotAuthenticated : Int := 4003
def AuthenticationFailed : Int := 4004
def AlreadyAuthenticated : Int := 4005
def InvalidSequence : Int := 4007
def RateLimited : Int := 4008
def SessionTimedOut : Int := 4009
def InvalidShard : Int := 4010
def ShardingRequired : Int := 4011
def InvalidApiVersion : Int := 4012
def InvalidIntents : Int := 4013
def DisallowedIntents : Int := 4014

end FluxorCloseCode

/-- shouldReconnect: the switch returns false for the six non-recoverable
codes (fallthrough cases sharing one return) and true for everything else. -/
def shouldReconnect (code : Int) : Bool :=
  if code == FluxorCloseCode.AuthenticationFailed
      || code == FluxorCloseCode.InvalidShard
      || code == FluxorCloseCode.ShardingRequired
      || code == FluxorCloseCode.InvalidApiVersion
      || code == FluxorCloseCode.InvalidIntents
      || code == FluxorCloseCode.DisallowedIntents
  then false
  else true

/-! ## Token utilities (src/util/token.ts) -/

/-- Character-list form of JavaScript String.startsWith: the second list is a
leading part of the first. -/
def listStartsWith : List Char → List Char → Bool
  | _, [] => true
  | [], _ :: _ => false
  | c :: s, p :: ps => c == p && listStartsWith s ps

/-- JavaScript token.startsWith(pat) on the character data. -/
def strStartsWith (s pat : String) : Bool :=
  listStartsWith s.data pat.data

/-- getGatewayToken: strip the leading "Bot " (token.slice(4)) when present,
otherwise return the token unchanged. -/
def getGatewayToken (token : String) : String :=
  if strStartsWith token "Bot " then ⟨token.data.drop 4⟩ else token

/-! ## RateLimitManager (RateLimitManager part of src/commands/Command.ts) -/

/-- Route configuration (src/rateLimit/RateLimitConfig.ts). -/
structure RateLimitConfig where
  bucket : String
  limit : Nat
  windowMs : Int
  exemptFromGlobal : Bool
deriving Repr, DecidableEq

/-- Caller-supplied dynamic IDs (interface BucketParams).  A field that the
caller omits is none. -/
structure BucketParams where
  channelId : Option String
  guildId : Option String
  userId : Option String
  targetId : Option String
  webhookId : Option String
  inviteCode : Option String
deriving Repr, DecidableEq

/-- JavaScript truthiness of an optional string: undefined and the empty
string are falsy. -/
def truthyStr : Option String → Bool
  | none => false
  | some s => !(s == "")

/-- Character-list form of JavaScript String.includes. -/
def listContains : List Char → List Char → Bool
  | [], pat => listStartsWith [] pat
  | s@(_ :: rest), pat => listStartsWith s pat || listContains rest pat

/-- JavaScript key.includes(pat) on the character data. -/
def strIncludes (s pat : String) : Bool :=
  listContains s.data pat.data

/-- Character-list form of JavaScript String.replace with a string pattern:
replace only the first occurrence, the original when there is none. -/
def listReplaceFirst (pat repl : List Char) : List Char → List Char
  | [] => if listStartsWith [] pat then repl else []
  | c :: rest =>
    if listStartsWith (c :: rest) pat then repl ++ (c :: rest).drop pat.length
    else c :: listReplaceFirst pat repl rest

/-- JavaScript key.replace(pat, repl) on the character data. -/
def strReplaceFirst (s pat repl : String) : String :=
  ⟨listReplaceFirst pat.data repl.data s.data⟩

/-- Key-resolution steps of RateLimitManager.getBucket: for each of the six
placeholders, substitute the supplied ID exactly when the param is truthy and
the placeholder occurs in the current key, in source order. -/
def resolveBucketKey (bucket : String) (p : BucketParams) : String :=
  let key := bucket
  let key := if truthyStr p.channelId && strIncludes key "::channel_id"
    then strReplaceFirst key "::channel_id" ("::" ++ p.channelId.getD "") else key
  let key := if truthyStr p.guildId && strIncludes key "::guild_id"
    then strReplaceFirst key "::guild_id" ("::" ++ p.guildId.getD "") else key
  let key := if truthyStr p.userId && strIncludes key "::user_id"
    then strReplaceFirst key "::user_id" ("::" ++ p.userId.getD "") else key
  let key := if truthyStr p.targetId && strIncludes key "::target_id"
    then strReplaceFirst key "::target_id" ("::" ++ p.targetId.getD "") else key
  let key := if truthyStr p.webhookId && strIncludes key "::webhook_id"
    then strReplaceFirst key "::webhook_id" ("::" ++ p.webhookId.getD "") else key
  let key := if truthyStr p.inviteCode && strIncludes key "::invite_code"
    then strReplaceFirst key "::invite_code" ("::" ++ p.inviteCode.getD "") else key
  key

/-- Manager state: the enabled flag and the bucket table (a Map in the source,
modelled as an association list in insertion order). -/
structure RateLimitManager where
  enabled : Bool
  buckets : List (String × RateLimitBucket)
deriving Repr, DecidableEq

/-- RateLimitManager.getBucket: null when disabled; otherwise resolve the key,
reuse the cached bucket or create one from the config. -/
def RateLimitManager.getBucket (m : RateLimitManager) (config : RateLimitConfig)
    (p : BucketParams) : Option RateLimitBucket × RateLimitManager :=
  if !m.enabled then (none, m)
  else
    let key := resolveBucketKey config.bucket p
    match m.buckets.lookup key with
    | some b => (some b, m)
    | none =>
      let b : RateLimitBucket :=
        ⟨key, config.limit, config.windowMs, config.exemptFromGlobal, []⟩
      (some b, ⟨m.enabled, m.buckets ++ [(key, b)]⟩)

/-- Observable step of RateLimitManager.waitForRateLimit: an acquire call with
the wait it returned, or a sleep of the given duration. -/
inductive RLEvent where
  | acq (wait : Int)
  | sleep (ms : Int)
deriving Repr, DecidableEq

/-- RateLimitManager.waitForRateLimit: no-op when disabled or the bucket is
null; otherwise acquire, and on a positive wait sleep and acquire once more,
on a second positive wait sleep once more and return regardless.  The two
clock parameters are the instants at which the first and second queued acquire
bodies run; the event list records every acquire and sleep in order. -/
def RateLimitManager.waitForRateLimit (m : RateLimitManager)
    (bucket : Option RateLimitBucket) (now1 now2 : Int) :
    List RLEvent × Option RateLimitBucket :=
  if !m.enabled || bucket.isNone then ([], bucket)
  else
    match bucket with
    | none => ([], none)
    | some b =>
      let r1 := b.acquire now1
      if 0 < r1.1 then
        let r2 := r1.2.acquire now2
        if 0 < r2.1 then
          ([.acq r1.1, .sleep r1.1, .acq r2.1, .sleep r2.1], some r2.2)
        else
          ([.acq r1.1, .sleep r1.1, .acq r2.1], some r2.2)
      else
        ([.acq r1.1], some r1.2)

/-- Remaining capacity as reported by getBucketInfo: the source returns the
JavaScript value Infinity when rate limiting is disabled, modelled by the
infinite constructor. -/
inductive RemainingCount where
  | finite (n : Int)
  | infinite
deriving Repr, DecidableEq

/-- RateLimitManager.getBucketInfo: remaining Infinity and reset 0 when
disabled or the bucket is null, otherwise getRemaining then getResetTime. -/
def RateLimitManager.getBucketInfo (m : RateLimitManager)
    (bucket : Option RateLimitBucket) (now : Int) :
    (RemainingCount × Int) × Option RateLimitBucket :=
  if !m.enabled || bucket.isNone then ((.infinite, 0), bucket)
  else
    match bucket with
    | none => ((.infinite, 0), none)
    | some b =>
      let r1 := b.getRemaining now
      let r2 := r1.2.getResetTime now
      ((.finite r1.1, r2.1), some r2.2)

/-! ## Embed builder (src/builders/EmbedBuilder.ts)

Throwing setters are modelled as Except, the error carrying the RangeError
message. -/

def MaxTitleLength : Nat := 256
def MaxDescriptionLength : Nat := 4096
def MaxFieldCount : Nat := 25
def MaxFieldNameLength : Nat := 256
def MaxFieldValueLength : Nat := 1024
def MaxFooterTextLength : Nat := 2048
def MaxAuthorNameLength : Nat := 256
def MaxEmbedLength : Nat := 6000

structure EmbedFooter where
  text : String
  icon_url : Option String
deriving Repr, DecidableEq

structure EmbedAuthor where
  name : String
  url : Option String
  icon_url : Option String
deriving Repr, DecidableEq

structure EmbedField where
  name : String
  value : String
  inline : Option Bool
deriving Repr, DecidableEq

structure EmbedMedia where
  url : String
deriving Repr, DecidableEq

structure Embed where
  title : Option String
  description : Option String
  url : Option String
  timestamp : Option String
  color : Option Int
  footer : Option EmbedFooter
  image : Option EmbedMedia
  thumbnail : Option EmbedMedia
  author : Option EmbedAuthor
  fields : Option (List EmbedField)
deriving Repr, DecidableEq

structure EmbedBuilder where
  title : Option String
  description : Option String
  url : Option String
  timestamp : Option String
  color : Option Int
  footer : Option EmbedFooter
  image : Option EmbedMedia
  thumbnail : Option EmbedMedia
  author : Option EmbedAuthor
  fields : List EmbedField
deriving Repr, DecidableEq

/-- Fresh builder: every field unset, no fields. -/
def EmbedBuilder.empty : EmbedBuilder :=
  ⟨none, none, none, none, none, none, none, none, none, []⟩

/-- EmbedBuilder.setTitle with its 256-character RangeError. -/
def EmbedBuilder.setTitle (b : EmbedBuilder) (title : String) : Except String EmbedBuilder :=
  if title.length > MaxTitleLength then .error "Title exceeds 256 characters."
  else .ok { b with title := some title }

/-- EmbedBuilder.setDescription with its 4096-character RangeError. -/
def EmbedBuilder.setDescription (b : EmbedBuilder) (description : String) :
    Except String EmbedBuilder :=
  if description.length > MaxDescriptionLength then .error "Description exceeds 4096 characters."
  else .ok { b with description := some description }

/-- EmbedBuilder.setFooter: the EmbedFooterBuilder constructor throws past
2048 characters; the icon is attached only when truthy. -/
def EmbedBuilder.setFooter (b : EmbedBuilder) (text : String) (iconUrl : Option String) :
    Except String EmbedBuilder :=
  if text.length > MaxFooterTextLength then .error "Footer text exceeds 2048 characters."
  else .ok { b with footer := some ⟨text, if truthyStr iconUrl then iconUrl else none⟩ }

/-- EmbedBuilder.setAuthor: the EmbedAuthorBuilder constructor throws past
256 characters; url and icon are attached only when truthy. -/
def EmbedBuilder.setAuthor (b : EmbedBuilder) (name : String)
    (url iconUrl : Option String) : Except String EmbedBuilder :=
  if name.length > MaxAuthorNameLength then .error "Author name exceeds 256 characters."
  else .ok { b with author := some ⟨name,
    if truthyStr url then url else none,
    if truthyStr iconUrl then iconUrl else none⟩ }

/-- EmbedBuilder.addField: the 25-field cap is checked first, then the
EmbedFieldBuilder constructor checks name and value lengths in that order. -/
def EmbedBuilder.addField (b : EmbedBuilder) (name value : String) (inline : Option Bool) :
    Except String EmbedBuilder :=
  if b.fields.length ≥ MaxFieldCount then .error "Cannot add more than 25 fields."
  else if name.length > MaxFieldNameLength then .error "Field name exceeds 256 characters."
  else if value.length > MaxFieldValueLength then .error "Field value exceeds 1024 characters."
  else .ok { b with fields := b.fields ++ [⟨name, value, inline⟩] }

/-- EmbedBuilder._totalLength: the source skips falsy title and description
(an empty string contributes nothing, which equals its length anyway) and sums
footer text, author name, and every field name and value. -/
def EmbedBuilder.totalLength (b : EmbedBuilder) : Nat :=
  (match b.title with | some t => if t == "" then 0 else t.length | none => 0)
  + (match b.description with | some d => if d == "" then 0 else d.length | none => 0)
  + (match b.footer with | some f => f.text.length | none => 0)
  + (match b.author with | some a => a.name.length | none => 0)
  + b.fields.foldl (fun total f => total + f.name.length + f.value.length) 0

/-- EmbedBuilder.build: throw when the total passes 6000 characters, else
assemble the Embed object, the fields array only when non-empty. -/
def EmbedBuilder.build (b : EmbedBuilder) : Except String Embed :=
  if b.totalLength > MaxEmbedLength then
    .error "Total embed length exceeds the maximum of 6000 characters."
  else
    .ok ⟨b.title, b.description, b.url, b.timestamp, b.color, b.footer, b.image,
      b.thumbnail, b.author, if b.fields.length > 0 then some b.fields else none⟩

/-- Expected waits of a sequence of queued acquires all inside the first
window: the call with global index k is admitted (wait 0) while k is below
the limit, and afterwards told to wait until the oldest entry, recorded by
the first call at n1, leaves the window. -/
def expectedWaits (L : Nat) (W n1 : Int) : Nat → List Int → List Int
  | _, [] => []
  | k, n :: rest => (if k < L then 0 else n1 + W - n) :: expectedWaits L W n1 (k + 1) rest

/-- Recogniser for acquire events of waitForRateLimit. -/
def RLEvent.isAcq : RLEvent → Bool
  | .acq _ => true
  | .sleep _ => false

/-- Recogniser for sleep events of waitForRateLimit. -/
def RLEvent.isSleep : RLEvent → Bool
  | .acq _ => false
  | .sleep _ => true

/-- Total embed length as the specification words it: the lengths of title,
description, footer text and author name plus the lengths of every field name
and value.  Stated separately from EmbedBuilder.totalLength (translated from
the source) so the build theorem compares the two. -/
def specEmbedTotal (b : EmbedBuilder) : Nat :=
  (b.title.getD "").length + (b.description.getD "").length +
  ((b.footer.map EmbedFooter.text).getD "").length +
  ((b.author.map EmbedAuthor.name).getD "").length +
  (b.fields.map (fun f => f.name.length + f.value.length)).sum

/-! ## Helper lemmas -/

lemma pruneList_eq_self {c : Int} {ts : List Int} (h : ∀ t ∈ ts, c ≤ t) :
    pruneList c ts = ts := by
  cases ts with
  | nil => rfl
  | cons t rest =>
    have : ¬ t < c := not_lt.2 (h t (List.mem_cons_self t rest))
    simp [pruneList, this]

lemma pruneList_length_le (c : Int) (ts : List Int) :
    (pruneList c ts).length ≤ ts.length := by
  induction ts with
  | nil => simp [pruneList]
  | cons t rest ih =>
    by_cases h : t < c
    · rw [pruneList, if_pos h]
      exact le_trans ih (Nat.le_succ _)
    · rw [pruneList, if_neg h]

lemma pruneList_mem_ge {c : Int} :
    ∀ {ts : List Int}, List.Sorted (· ≤ ·) ts → ∀ t ∈ pruneList c ts, c ≤ t := by
  intro ts
  induction ts with
  | nil => intro _ t ht; simp [pruneList] at ht
  | cons a rest ih =>
    intro hs t ht
    rw [List.sorted_cons] at hs
    by_cases h : a < c
    · rw [pruneList, if_pos h] at ht
      exact ih hs.2 t ht
    · rw [pruneList, if_neg h] at ht
      rcases List.mem_cons.1 ht with rfl | hmem
      · exact not_lt.1 h
      · exact le_trans (not_lt.1 h) (hs.1 t hmem)

lemma tryAcquire_admit (key : String) (e : Bool) (L : Nat) (W : Int)
    (ts : List Int) (n : Int)
    (hp : pruneList (n - W) ts = ts) (hlt : ts.length < L) :
    RateLimitBucket.tryAcquire ⟨key, L, W, e, ts⟩ n = (0, ⟨key, L, W, e, ts ++ [n]⟩) := by
  simp [RateLimitBucket.tryAcquire, RateLimitBucket.prune, hp, hlt]

lemma tryAcquire_full (key : String) (e : Bool) (L : Nat) (W : Int)
    (t0 : Int) (ts' : List Int) (n : Int)
    (hp : pruneList (n - W) (t0 :: ts') = t0 :: ts')
    (hge : ¬ (t0 :: ts').length < L) :
    RateLimitBucket.tryAcquire ⟨key, L, W, e, t0 :: ts'⟩ n =
      (max 0 (t0 + W - n), ⟨key, L, W, e, t0 :: ts'⟩) := by
  have hge2 : ¬ ts'.length + 1 < L := by simpa using hge
  simp [RateLimitBucket.tryAcquire, RateLimitBucket.prune, hp, hge2]

/-- Characterisation of a serialized run of acquires that all happen inside
the window opened by the first call at n1: the first L (by global index) are
admitted with wait 0 and recorded, the rest are deferred with wait
n1 + W - n, never recorded, and the stored timestamps always keep n1 at the
head, stay inside the window, and number min k L after k calls. -/
theorem acquireRun_expected (key : String) (e : Bool) (L : Nat) (W n1 : Int)
    (hL : 1 ≤ L) :
    ∀ (ns : List Int) (k : Nat) (ts : List Int),
      (∀ n ∈ ns, n1 ≤ n ∧ n < n1 + W) →
      (k = 0 → ns = [] ∨ ns.head? = some n1) →
      (∀ t ∈ ts, n1 ≤ t ∧ t < n1 + W) →
      ts.length = min k L →
      (ts ≠ [] → ts.head? = some n1) →
      (acquireRun ⟨key, L, W, e, ts⟩ ns).1 = expectedWaits L W n1 k ns ∧
      ∃ ts2,
        (acquireRun ⟨key, L, W, e, ts⟩ ns).2 = ⟨key, L, W, e, ts2⟩ ∧
        (∀ t ∈ ts2, n1 ≤ t ∧ t < n1 + W) ∧
        ts2.length = min (k + ns.length) L ∧
        (ts2 ≠ [] → ts2.head? = some n1) := by
  intro ns
  induction ns with
  | nil =>
    intro k ts _ _ hb hlen hhead
    exact ⟨rfl, ts, rfl, hb, by simpa using hlen, hhead⟩
  | cons n rest ih =>
    intro k ts hns hfirst hb hlen hhead
    obtain ⟨hn1, hnW⟩ := hns n (List.mem_cons_self n rest)
    have hrest : ∀ x ∈ rest, n1 ≤ x ∧ x < n1 + W :=
      fun x hx => hns x (List.mem_cons_of_mem n hx)
    have hprune : pruneList (n - W) ts = ts :=
      pruneList_eq_self (fun t ht => by have := (hb t ht).1; omega)
    by_cases hcase : ts.length < L
    · -- this call is admitted
      have hkL : k < L := by omega
      have hlenk : ts.length = k := by omega
      have step := tryAcquire_admit key e L W ts n hprune hcase
      have hb2 : ∀ t ∈ ts ++ [n], n1 ≤ t ∧ t < n1 + W := by
        intro t ht
        rcases List.mem_append.1 ht with h | h
        · exact hb t h
        · simp at h; subst h; exact ⟨hn1, hnW⟩
      have hlen2 : (ts ++ [n]).length = min (k + 1) L := by
        simp [List.length_append, hlenk]; omega
      have hhead2 : ts ++ [n] ≠ [] → (ts ++ [n]).head? = some n1 := by
        intro _
        cases ts with
        | nil =>
          have hk0 : k = 0 := by simpa using hlenk.symm
          rcases hfirst hk0 with h | h
          · exact absurd h (by simp)
          · simp at h; simp [h]
        | cons a ts' =>
          have := hhead (by simp)
          simp at this
          simp [this]
      have hrec := ih (k + 1) (ts ++ [n]) hrest (fun h => absurd h (Nat.succ_ne_zero k))
        hb2 hlen2 hhead2
      refine ⟨?_, ?_⟩
      · rw [acquireRun]
        simp only [RateLimitBucket.acquire, step, hrec.1]
        rw [expectedWaits]
        simp [hkL]
      · obtain ⟨ts2, heq, h1, h2, h3⟩ := hrec.2
        refine ⟨ts2, ?_, h1, ?_, h3⟩
        · rw [acquireRun]
          simp only [RateLimitBucket.acquire, step]
          exact heq
        · rw [h2]; simp [List.length_cons]; omega
    · -- window full: the call is deferred
      have hminL : min k L = L := by omega
      have hlenL : ts.length = L := by omega
      have hkge : L ≤ k := by omega
      obtain ⟨t0, ts', rfl⟩ : ∃ t0 ts', ts = t0 :: ts' := by
        cases ts with
        | nil => simp at hlenL; omega
        | cons a b => exact ⟨a, b, rfl⟩
      have ht0 : t0 = n1 := by
        have := hhead (by simp)
        simpa using this
      subst ht0
      have step := tryAcquire_full key e L W t0 ts' n hprune hcase
      have hmax : max 0 (t0 + W - n) = t0 + W - n := by omega
      have hlen2 : (t0 :: ts').length = min (k + 1) L := by
        rw [hlenL]; omega
      have hrec := ih (k + 1) (t0 :: ts') hrest (fun h => absurd h (Nat.succ_ne_zero k))
        hb hlen2 hhead
      refine ⟨?_, ?_⟩
      · rw [acquireRun]
        simp only [RateLimitBucket.acquire, step, hrec.1]
        rw [expectedWaits]
        have hkL : ¬ k < L := by omega
        simp [hkL, hmax]
      · obtain ⟨ts2, heq, h1, h2, h3⟩ := hrec.2
        refine ⟨ts2, ?_, h1, ?_, h3⟩
        · rw [acquireRun]
          simp only [RateLimitBucket.acquire, step]
          exact heq
        · rw [h2]; simp [List.length_cons]; omega

lemma expectedWaits_all_zero (L : Nat) (W n1 : Int) :
    ∀ (ns : List Int) (k : Nat), k + ns.length ≤ L →
      ∀ w ∈ expectedWaits L W n1 k ns, w = 0 := by
  intro ns
  induction ns with
  | nil => intro k _ w hw; simp [expectedWaits] at hw
  | cons n rest ih =>
    intro k hk w hw
    rw [expectedWaits] at hw
    have hkL : k < L := by simp at hk; omega
    rcases List.mem_cons.1 hw with rfl | hmem
    · simp [hkL]
    · exact ih (k + 1) (by simp at hk ⊢; omega) w hmem

lemma expectedWaits_counts (L : Nat) (W n1 : Int) :
    ∀ (ns : List Int) (k : Nat), (∀ n ∈ ns, n < n1 + W) →
      (expectedWaits L W n1 k ns).length = ns.length ∧
      (expectedWaits L W n1 k ns).countP (fun w => decide (w = 0)) = min ns.length (L - k) ∧
      (expectedWaits L W n1 k ns).countP (fun w => decide (0 < w)) =
        ns.length - min ns.length (L - k) := by
  intro ns
  induction ns with
  | nil => intro k _; simp [expectedWaits]
  | cons n rest ih =>
    intro k hns
    have hn : n < n1 + W := hns n (List.mem_cons_self n rest)
    have hrest := ih (k + 1) (fun x hx => hns x (List.mem_cons_of_mem n hx))
    obtain ⟨hlen, hzero, hpos⟩ := hrest
    by_cases hkL : k < L
    · rw [expectedWaits]
      simp only [if_pos hkL, List.countP_cons, List.length_cons, hlen, hzero, hpos]
      refine ⟨trivial, ?_, ?_⟩ <;> simp <;> omega
    · rw [expectedWaits]
      have hne : ¬ (n1 + W - n = 0) := by omega
      have hgt : 0 < n1 + W - n := by omega
      simp only [if_neg hkL, List.countP_cons, List.length_cons, hlen, hzero, hpos]
      refine ⟨trivial, ?_, ?_⟩ <;> simp [hne, hgt] <;> omega

lemma strData_append (s t : String) : (s ++ t).data = s.data ++ t.data := by
  cases s; cases t; rfl

lemma listStartsWith_append : ∀ (p s : List Char), listStartsWith (p ++ s) p = true := by
  intro p
  induction p with
  | nil => intro s; cases s <;> rfl
  | cons c p ih => intro s; simp [listStartsWith, ih]

lemma foldl_fields (l : List EmbedField) (acc : Nat) :
    l.foldl (fun total f => total + f.name.length + f.value.length) acc =
      acc + (l.map (fun f => f.name.length + f.value.length)).sum := by
  induction l generalizing acc with
  | nil => simp
  | cons f rest ih => simp [ih]; omega

lemma totalLength_eq_spec (b : EmbedBuilder) : b.totalLength = specEmbedTotal b := by
  rw [EmbedBuilder.totalLength, specEmbedTotal, foldl_fields]
  have h1 : (match b.title with
      | some t => if t == "" then 0 else t.length
      | none => 0) = (b.title.getD "").length := by
    cases b.title with
    | none => rfl
    | some t =>
      by_cases ht : t = ""
      · simp [ht]
      · simp [ht]
  have h2 : (match b.description with
      | some d => if d == "" then 0 else d.length
      | none => 0) = (b.description.getD "").length := by
    cases b.description with
    | none => rfl
    | some d =>
      by_cases hd : d = ""
      · simp [hd]
      · simp [hd]
  have h3 : (match b.footer with
      | some f => f.text.length
      | none => 0) = ((b.footer.map EmbedFooter.text).getD "").length := by
    cases b.footer <;> rfl
  have h4 : (match b.author with
      | some a => a.name.length
      | none => 0) = ((b.author.map EmbedAuthor.name).getD "").length := by
    cases b.author <;> rfl
  rw [h1, h2, h3, h4]
  omega

/-! ## Claim theorems -/

/-- Claim C1: on a fresh bucket with limit L and window W, L consecutive
acquires inside the window (the first at n1) each return a zero wait and each
record a timestamp, and a further acquire before W elapses returns the
positive remaining time n1 + W - now until the oldest entry leaves the
window, without recording a timestamp. -/
theorem rateLimit_acquire_window_scenario
    (key : String) (e : Bool) (L : Nat) (W n1 now : Int) (ns : List Int)
    (hL : 1 ≤ L) (hlen : ns.length = L) (hhead : ns.head? = some n1)
    (hns : ∀ n ∈ ns, n1 ≤ n ∧ n < n1 + W)
    (hnow : now < n1 + W) :
    (∀ w ∈ (acquireRun ⟨key, L, W, e, []⟩ ns).1, w = 0) ∧
    (acquireRun ⟨key, L, W, e, []⟩ ns).2.timestamps.length = L ∧
    ((acquireRun ⟨key, L, W, e, []⟩ ns).2.acquire now).1 = n1 + W - now ∧
    0 < n1 + W - now ∧
    ((acquireRun ⟨key, L, W, e, []⟩ ns).2.acquire now).2.timestamps =
      (acquireRun ⟨key, L, W, e, []⟩ ns).2.timestamps := by
  have main := acquireRun_expected key e L W n1 hL ns 0 [] hns
    (fun _ => Or.inr hhead) (by simp) (by simp) (by simp)
  obtain ⟨hws, ts2, heq, hb2, hlen2, hhead2⟩ := main
  have hzero : ∀ w ∈ (acquireRun ⟨key, L, W, e, []⟩ ns).1, w = 0 := by
    rw [hws]
    exact expectedWaits_all_zero L W n1 ns 0 (by omega)
  have hlenL : ts2.length = L := by
    rw [hlen2]; simp [hlen]
  obtain ⟨tl, rfl⟩ : ∃ tl, ts2 = n1 :: tl := by
    cases ts2 with
    | nil => simp at hlenL; omega
    | cons a tl =>
      have := hhead2 (by simp)
      simp at this
      exact ⟨tl, by rw [this]⟩
  have hprune : pruneList (now - W) (n1 :: tl) = n1 :: tl :=
    pruneList_eq_self (fun t ht => by have := (hb2 t ht).1; omega)
  have hge : ¬ (n1 :: tl).length < L := by rw [hlenL]; omega
  have step := tryAcquire_full key e L W n1 tl now hprune hge
  rw [heq]
  refine ⟨hzero, hlenL, ?_, by omega, ?_⟩
  · rw [RateLimitBucket.acquire, step]
    simp; omega
  · rw [RateLimitBucket.acquire, step]

/-- Claim C1 witness: limit 2, window 100, two acquires at 10 and 15 return
zero, a third at 50 returns 60 and records nothing. -/
theorem rateLimit_acquire_window_scenario_witness :
    ((1 : Nat) ≤ 2 ∧ ([10, 15] : List Int).length = 2 ∧
      ([10, 15] : List Int).head? = some 10 ∧
      (∀ n ∈ ([10, 15] : List Int), (10 : Int) ≤ n ∧ n < 10 + 100) ∧
      (50 : Int) < 10 + 100) ∧
    ((∀ w ∈ (acquireRun ⟨"k", 2, 100, false, []⟩ [10, 15]).1, w = 0) ∧
      (acquireRun ⟨"k", 2, 100, false, []⟩ [10, 15]).2.timestamps.length = 2 ∧
      ((acquireRun ⟨"k", 2, 100, false, []⟩ [10, 15]).2.acquire 50).1 = 10 + 100 - 50 ∧
      (0 : Int) < 10 + 100 - 50 ∧
      ((acquireRun ⟨"k", 2, 100, false, []⟩ [10, 15]).2.acquire 50).2.timestamps =
        (acquireRun ⟨"k", 2, 100, false, []⟩ [10, 15]).2.timestamps) :=
  ⟨by decide,
    rateLimit_acquire_window_scenario "k" false 2 100 10 50 [10, 15] (by decide)
      (by decide) (by decide) (by decide) (by decide)⟩

/-- Claim C2: M callers racing one bucket are serialized by its FIFO queue
into a sequential run of M tryAcquire bodies; when all M clock readings fall
inside the window opened by the first one and M is at least the limit L,
exactly L of the returned waits are zero (those callers are admitted), the
other M - L waits are strictly positive (those callers are deferred), for
every M, every such sequence of instants, and hence every scheduling order. -/
theorem rateLimit_concurrent_admission_exactly_limit
    (key : String) (e : Bool) (L : Nat) (W n1 : Int) (ns : List Int)
    (hL : 1 ≤ L) (hM : L ≤ ns.length) (hhead : ns.head? = some n1)
    (hns : ∀ n ∈ ns, n1 ≤ n ∧ n < n1 + W) :
    ((acquireRun ⟨key, L, W, e, []⟩ ns).1.countP (fun w => decide (w = 0))) = L ∧
    ((acquireRun ⟨key, L, W, e, []⟩ ns).1.countP (fun w => decide (0 < w))) =
      ns.length - L ∧
    (acquireRun ⟨key, L, W, e, []⟩ ns).1.length = ns.length := by
  have main := acquireRun_expected key e L W n1 hL ns 0 [] hns
    (fun _ => Or.inr hhead) (by simp) (by simp) (by simp)
  obtain ⟨hws, _⟩ := main
  have counts := expectedWaits_counts L W n1 ns 0 (fun n hn => (hns n hn).2)
  obtain ⟨hlen, hzero, hpos⟩ := counts
  rw [hws, hlen, hzero, hpos]
  have : min ns.length (L - 0) = L := by omega
  rw [this]
  exact ⟨rfl, rfl, rfl⟩

/-- Claim C2 witness: three callers racing a bucket with limit 2 produce
exactly two zero waits and one positive wait. -/
theorem rateLimit_concurrent_admission_exactly_limit_witness :
    ((1 : Nat) ≤ 2 ∧ 2 ≤ ([10, 15, 20] : List Int).length ∧
      ([10, 15, 20] : List Int).head? = some 10 ∧
      (∀ n ∈ ([10, 15, 20] : List Int), (10 : Int) ≤ n ∧ n < 10 + 100)) ∧
    ((acquireRun ⟨"k", 2, 100, false, []⟩ [10, 15, 20]).1.countP
        (fun w => decide (w = 0)) = 2 ∧
      (acquireRun ⟨"k", 2, 100, false, []⟩ [10, 15, 20]).1.countP
        (fun w => decide (0 < w)) = ([10, 15, 20] : List Int).length - 2 ∧
      (acquireRun ⟨"k", 2, 100, false, []⟩ [10, 15, 20]).1.length =
        ([10, 15, 20] : List Int).length) :=
  ⟨by decide,
    rateLimit_concurrent_admission_exactly_limit "k" false 2 100 10 [10, 15, 20]
      (by decide) (by decide) (by decide) (by decide)⟩

/-- Claim C3: operations preserve the bucket invariant.  For a bucket whose
timestamps are in order (as every reachable bucket state is, timestamps being
recorded at non-decreasing clock readings), a prune leaves no entry older
than now - windowMs; and when the stored count is within the limit, an
acquire that returns 0 leaves at most limit timestamps. -/
theorem rateLimit_bucket_invariants (b : RateLimitBucket) (now : Int)
    (hsorted : List.Sorted (· ≤ ·) b.timestamps)
    (hlen : b.timestamps.length ≤ b.limit) :
    (∀ t ∈ (b.prune now).timestamps, now - b.windowMs ≤ t) ∧
    ((b.tryAcquire now).1 = 0 → (b.tryAcquire now).2.timestamps.length ≤ b.limit) := by
  constructor
  · intro t ht
    rw [RateLimitBucket.prune] at ht
    exact pruneList_mem_ge hsorted t ht
  · intro _
    rw [RateLimitBucket.tryAcquire]
    have hple := pruneList_length_le (now - b.windowMs) b.timestamps
    by_cases hc : (pruneList (now - b.windowMs) b.timestamps).length < b.limit
    · simp only [RateLimitBucket.prune, hc, if_pos]
      simp
      omega
    · simp only [RateLimitBucket.prune, if_neg hc]
      cases hts : pruneList (now - b.windowMs) b.timestamps with
      | nil => simp [hts]
      | cons oldest rest =>
        simp only
        rw [← hts]
        omega

/-- Claim C3 witness: a bucket holding sorted timestamps 5 and 10 with limit
2, pruned and acquired at time 60. -/
theorem rateLimit_bucket_invariants_witness :
    (List.Sorted (· ≤ ·) (RateLimitBucket.mk "k" 2 100 false [5, 10]).timestamps ∧
      (RateLimitBucket.mk "k" 2 100 false [5, 10]).timestamps.length ≤
        (RateLimitBucket.mk "k" 2 100 false [5, 10]).limit) ∧
    ((∀ t ∈ ((RateLimitBucket.mk "k" 2 100 false [5, 10]).prune 60).timestamps,
        (60 : Int) - (RateLimitBucket.mk "k" 2 100 false [5, 10]).windowMs ≤ t) ∧
      (((RateLimitBucket.mk "k" 2 100 false [5, 10]).tryAcquire 60).1 = 0 →
        ((RateLimitBucket.mk "k" 2 100 false [5, 10]).tryAcquire 60).2.timestamps.length ≤
          (RateLimitBucket.mk "k" 2 100 false [5, 10]).limit)) :=
  ⟨⟨by decide, by decide⟩,
    rateLimit_bucket_invariants ⟨"k", 2, 100, false, [5, 10]⟩ 60 (by decide) (by decide)⟩

/-- Claim C4: shouldReconnect returns false exactly for the six close codes
4004, 4010, 4011, 4012, 4013 and 4014, and true for every other integer
code, including 4000 through 4003, 4005, 4007 through 4009 and any code not
in the table. -/
theorem shouldReconnect_false_iff_nonrecoverable_code (code : Int) :
    shouldReconnect code = false ↔
      (code = 4004 ∨ code = 4010 ∨ code = 4011 ∨ code = 4012 ∨
        code = 4013 ∨ code = 4014) := by
  simp only [shouldReconnect, FluxorCloseCode.AuthenticationFailed,
    FluxorCloseCode.InvalidShard, FluxorCloseCode.ShardingRequired,
    FluxorCloseCode.InvalidApiVersion, FluxorCloseCode.InvalidIntents,
    FluxorCloseCode.DisallowedIntents]
  split
  · rename_i h
    simp only [Bool.or_eq_true, beq_iff_eq] at h
    simp only [eq_self_iff_true, true_iff]
    tauto
  · rename_i h
    simp only [Bool.or_eq_true, beq_iff_eq] at h
    simp
    tauto

/-- Claim C5: getBucket substitutes a placeholder exactly when it occurs in
the template and the param is supplied: a params record with nothing supplied
leaves any template unchanged; the documented template with channelId "123"
resolves to "channels::123::messages::send" and with no channelId stays
literal; and on an enabled manager the returned bucket carries the resolved
key (with the config limits) and is cached under it. -/
theorem getBucket_placeholder_substitution_spec :
    (∀ bucket, resolveBucketKey bucket ⟨none, none, none, none, none, none⟩ = bucket) ∧
    resolveBucketKey "channels::channel_id::messages::send"
      ⟨some "123", none, none, none, none, none⟩ = "channels::123::messages::send" ∧
    resolveBucketKey "channels::channel_id::messages::send"
      ⟨none, none, none, none, none, none⟩ = "channels::channel_id::messages::send" ∧
    (∀ config p, (RateLimitManager.mk true []).getBucket config p =
      (some ⟨resolveBucketKey config.bucket p, config.limit, config.windowMs,
          config.exemptFromGlobal, []⟩,
        ⟨true, [(resolveBucketKey config.bucket p,
          ⟨resolveBucketKey config.bucket p, config.limit, config.windowMs,
            config.exemptFromGlobal, []⟩)]⟩)) :=
  ⟨fun bucket => rfl, by decide, rfl, fun config p => rfl⟩

/-- Claim C6: waitForRateLimit performs at most one extra wait-and-retry
cycle: its event trace never holds more than two acquires nor more than two
sleeps, and every sleep it performs follows a strictly positive wait; being a
total function of the two acquire instants, it always terminates and never
loops on local admission control. -/
theorem waitForRateLimit_bounded_retries (m : RateLimitManager)
    (bucket : Option RateLimitBucket) (now1 now2 : Int) :
    ((m.waitForRateLimit bucket now1 now2).1.countP RLEvent.isAcq ≤ 2) ∧
    ((m.waitForRateLimit bucket now1 now2).1.countP RLEvent.isSleep ≤ 2) ∧
    (∀ w : Int, RLEvent.sleep w ∈ (m.waitForRateLimit bucket now1 now2).1 → 0 < w) := by
  cases bucket with
  | none => simp [RateLimitManager.waitForRateLimit]
  | some b =>
    by_cases he : m.enabled
    · rcases h1 : b.acquire now1 with ⟨w1, b1⟩
      by_cases hw1 : 0 < w1
      · rcases h2 : b1.acquire now2 with ⟨w2, b2⟩
        by_cases hw2 : 0 < w2
        · simp [RateLimitManager.waitForRateLimit, he, h1, hw1, h2, hw2,
            RLEvent.isAcq, RLEvent.isSleep, List.countP_cons]
        · simp [RateLimitManager.waitForRateLimit, he, h1, hw1, h2, hw2,
            RLEvent.isAcq, RLEvent.isSleep, List.countP_cons]
      · simp [RateLimitManager.waitForRateLimit, he, h1, hw1,
          RLEvent.isAcq, RLEvent.isSleep, List.countP_cons]
    · simp [RateLimitManager.waitForRateLimit, he]

/-- Claim C7: getGatewayToken removes the four-character "Bot " lead of any
token that carries it, returning the remainder, and returns every other
token (user tokens with the flx underscore lead included) unchanged. -/
theorem getGatewayToken_bot_strip (rest other : String)
    (h : strStartsWith other "Bot " = false) :
    getGatewayToken ("Bot " ++ rest) = rest ∧ getGatewayToken other = other := by
  constructor
  · have hsw : strStartsWith ("Bot " ++ rest) "Bot " = true := by
      rw [strStartsWith, strData_append]
      exact listStartsWith_append _ _
    rw [getGatewayToken, if_pos hsw, strData_append]
    have h4 : ("Bot " : String).data.length = 4 := rfl
    rw [← h4, List.drop_left]
  · simp [getGatewayToken, h]

/-- Claim C7 witness: "Bot abc" becomes "abc" and "flx_user" stays as it is. -/
theorem getGatewayToken_bot_strip_witness :
    (strStartsWith "flx_user" "Bot " = false) ∧
    (getGatewayToken ("Bot " ++ "abc") = "abc" ∧ getGatewayToken "flx_user" = "flx_user") :=
  ⟨by decide, getGatewayToken_bot_strip "abc" "flx_user" (by decide)⟩

/-- Claim C8: each embed builder setter errors exactly when its documented
limit is exceeded (title 256, description 4096, field count 25 then field
name 256 then field value 1024, footer text 2048, author name 256), and
build errors exactly when the total of title, description, footer text,
author name and all field names and values passes 6000 characters, returning
the built embed otherwise. -/
theorem embedBuilder_limit_errors (b : EmbedBuilder) (t d na va ft an : String)
    (inl : Option Bool) (icon icon2 url : Option String) :
    ((b.setTitle t).isOk = false ↔ 256 < t.length) ∧
    ((b.setDescription d).isOk = false ↔ 4096 < d.length) ∧
    ((b.addField na va inl).isOk = false ↔
      (25 ≤ b.fields.length ∨ 256 < na.length ∨ 1024 < va.length)) ∧
    ((b.setFooter ft icon).isOk = false ↔ 2048 < ft.length) ∧
    ((b.setAuthor an url icon2).isOk = false ↔ 256 < an.length) ∧
    (b.build.isOk = false ↔ 6000 < specEmbedTotal b) := by
  refine ⟨?_, ?_, ?_, ?_, ?_, ?_⟩
  · rw [EmbedBuilder.setTitle]
    split <;> rename_i h <;>
      simp [Except.isOk, Except.toBool, MaxTitleLength] at h ⊢ <;> omega
  · rw [EmbedBuilder.setDescription]
    split <;> rename_i h <;>
      simp [Except.isOk, Except.toBool, MaxDescriptionLength] at h ⊢ <;> omega
  · rw [EmbedBuilder.addField]
    split
    · rename_i h
      simp [Except.isOk, Except.toBool, MaxFieldCount] at h ⊢
      omega
    · split
      · rename_i h1 h2
        simp [Except.isOk, Except.toBool, MaxFieldCount, MaxFieldNameLength] at h1 h2 ⊢
        omega
      · split <;> rename_i h1 h2 h3 <;>
          simp [Except.isOk, Except.toBool, MaxFieldCount, MaxFieldNameLength,
            MaxFieldValueLength] at h1 h2 h3 ⊢ <;> omega
  · rw [EmbedBuilder.setFooter]
    split <;> rename_i h <;>
      simp [Except.isOk, Except.toBool, MaxFooterTextLength] at h ⊢ <;> omega
  · rw [EmbedBuilder.setAuthor]
    split <;> rename_i h <;>
      simp [Except.isOk, Except.toBool, MaxAuthorNameLength] at h ⊢ <;> omega
  · rw [EmbedBuilder.build]
    split <;> rename_i h <;> rw [totalLength_eq_spec] at h <;>
      simp [Except.isOk, Except.toBool, MaxEmbedLength] at h ⊢ <;> omega

/-- Claim C9: a manager built with enabled false returns no bucket from
getBucket, makes waitForRateLimit return at once with no acquire and no
sleep, and reports infinite remaining capacity with a zero reset time. -/
theorem disabled_manager_is_noop (m : RateLimitManager) (config : RateLimitConfig)
    (p : BucketParams) (bucket : Option RateLimitBucket) (now1 now2 now : Int)
    (h : m.enabled = false) :
    m.getBucket config p = (none, m) ∧
    m.waitForRateLimit bucket now1 now2 = ([], bucket) ∧
    m.getBucketInfo bucket now = ((.infinite, 0), bucket) := by
  refine ⟨?_, ?_, ?_⟩ <;>
    simp [RateLimitManager.getBucket, RateLimitManager.waitForRateLimit,
      RateLimitManager.getBucketInfo, h]

/-- Claim C9 witness: a disabled manager evaluated on the global config and a
live bucket. -/
theorem disabled_manager_is_noop_witness :
    ((RateLimitManager.mk false []).enabled = false) ∧
    ((RateLimitManager.mk false []).getBucket ⟨"global", 50, 1000, false⟩
        ⟨none, none, none, none, none, none⟩ = (none, RateLimitManager.mk false []) ∧
      (RateLimitManager.mk false []).waitForRateLimit
        (some ⟨"k", 1, 100, false, [0]⟩) 10 20 = ([], some ⟨"k", 1, 100, false, [0]⟩) ∧
      (RateLimitManager.mk false []).getBucketInfo
        (some ⟨"k", 1, 100, false, [0]⟩) 10 =
          ((.infinite, 0), some ⟨"k", 1, 100, false, [0]⟩)) :=
  ⟨rfl, disabled_manager_is_noop (RateLimitManager.mk false [])
    ⟨"global", 50, 1000, false⟩ ⟨none, none, none, none, none, none⟩
    (some ⟨"k", 1, 100, false, [0]⟩) 10 20 10 rfl⟩

/-- Claim C10: an empty-string dynamic ID is falsy, so getBucket treats it as
absent: the resolved key with channelId set to the empty string equals the
one with channelId omitted, getBucket returns the same bucket and manager
state for both, and the documented template stays literal. -/
theorem empty_id_collapses_bucket_key (bucket : String) (p : BucketParams)
    (m : RateLimitManager) (config : RateLimitConfig) :
    resolveBucketKey bucket { p with channelId := some "" } =
      resolveBucketKey bucket { p with channelId := none } ∧
    m.getBucket config { p with channelId := some "" } =
      m.getBucket config { p with channelId := none } ∧
    resolveBucketKey "channels::channel_id::messages::send"
      ⟨some "", none, none, none, none, none⟩ = "channels::channel_id::messages::send" := by
  have hkey : ∀ bk, resolveBucketKey bk { p with channelId := some "" } =
      resolveBucketKey bk { p with channelId := none } := fun bk => rfl
  refine ⟨hkey bucket, ?_, rfl⟩
  rw [RateLimitManager.getBucket, RateLimitManager.getBucket, hkey]
